import Mathlib

/-!
Shallow embedding of `src/app.py` (Brazilian invoice/order HTML extraction).

Strings from the Python source are modelled as `List Char`; `String` wrappers
are used at the record level.  The BeautifulSoup HTML parse is out of scope:
the extraction endpoints are modelled from the `for tr in soup.find_all("tr")`
loop onward, over a list of `Tr` values (class list plus cell texts, the cell
texts being the results of `get_text(strip=True)`).

Python's `float()` call is modelled on the alphabet that can actually reach it
here (an optional leading sign followed by digits and periods): acceptance is
the decimal grammar `[+-]? (digits [. digits?] | . digits)`, and the only uses
of the parsed value are comparisons with zero, which for such finite decimal
strings depend only on the sign and on whether every digit is zero; they are
modelled by the signed integer mantissa `floatValZ`.
-/

/-- Python `str.strip()` whitespace set (ASCII part, the only part that occurs
in these inputs). -/
def pyIsSpace (c : Char) : Bool :=
  c == ' ' || c == '\t' || c == '\n' || c == '\r' || c == '\x0b' || c == '\x0c'

/-- Python `str.strip()`. -/
def pyStrip (s : List Char) : List Char :=
  ((s.dropWhile pyIsSpace).reverse.dropWhile pyIsSpace).reverse

/-- Model of `re.sub(r'[^\d,.]', '', s)`, `app.py` line 34: keep digits, commas and
periods. -/
def cleanChars (s : List Char) : List Char :=
  s.filter (fun c => c.isDigit || c == ',' || c == '.')

/-- Line 29: `valor_limpo.startswith('-')` (after the initial strip). -/
def signOf (s : List Char) : Bool :=
  (pyStrip s).head? == some '-'

/-- Lines 26-34 of `app.py`: strip, drop a leading minus (stripping again),
then delete every character that is not a digit, `,` or `.`. -/
def cleanedOf (s : List Char) : List Char :=
  cleanChars (if signOf s then pyStrip ((pyStrip s).drop 1) else pyStrip s)

/-- Lines 41-44: remove all periods (thousands separators), then turn each
comma into a period. -/
def commaBranch (s : List Char) : List Char :=
  (s.filter (fun c => !(c == '.'))).map (fun c => if c == ',' then '.' else c)

/-- Python `str.split('.')` (so `[] ↦ [[]]`, and a separator at either end
produces an empty part). -/
def splitDot : List Char → List (List Char)
  | [] => [[]]
  | c :: rest =>
    let ps := splitDot rest
    if c == '.' then [] :: ps
    else
      match ps with
      | [] => [[c]]
      | p :: tl => (c :: p) :: tl

/-- Lines 46-54: no comma present.  If splitting on `.` gives exactly two
parts and the second has length two, the period is a decimal point and the
string is kept; otherwise every period is a thousands separator and is
deleted. -/
def noCommaBranch (s : List Char) : List Char :=
  let partes := splitDot s
  if partes.length == 2 && (partes.getD 1 []).length == 2 then s
  else s.filter (fun c => !(c == '.'))

/-- Digit string to number, most significant first. -/
def digitsToNat (s : List Char) : Nat :=
  s.foldl (fun n c => 10 * n + (c.toNat - 48)) 0

/-- Body of Python's `float()` grammar for sign-free input over digits and
periods: `digits [. digits?] | . digits` (at least one digit overall, at most
one period). -/
def floatBody (t : List Char) : Bool :=
  match t.dropWhile Char.isDigit with
  | [] => !(t.takeWhile Char.isDigit).isEmpty
  | c :: frac =>
    (c == '.') && frac.all Char.isDigit
      && (!(t.takeWhile Char.isDigit).isEmpty || !frac.isEmpty)

/-- Whether Python `float()` accepts the string (restricted to the
sign/digit/period strings reachable in this program). -/
def floatAccepts (s : List Char) : Bool :=
  if s.head? == some '-' || s.head? == some '+' then floatBody (s.drop 1)
  else floatBody s

/-- The digit mantissa of a decimal string (all digits, ignoring sign and the
decimal point). -/
def mantissa (s : List Char) : Nat :=
  digitsToNat (s.filter Char.isDigit)

/-- Signed integer mantissa: has the same sign as the value `float()` parses,
so it models the program's only uses of that value (`== 0`, `< 0`, `<= 0`). -/
def floatValZ (s : List Char) : Int :=
  if s.head? == some '-' then -(mantissa s : Int) else (mantissa s : Int)

/-- Model of `converter_valor_brasileiro`, `app.py` lines 12-67.  Returns the
converted string, or the sentinel `"0"` when the cleaned input is empty or
the final string fails `float()` validation (the `except` path, line 67). -/
def converter_valor_brasileiro (valor_str : List Char) : List Char :=
  let valor_limpo := cleanedOf valor_str
  if valor_limpo.isEmpty then ['0']
  else
    let valor_sem_sinal :=
      if valor_limpo.any (fun c => c == ',') then commaBranch valor_limpo
      else noCommaBranch valor_limpo
    let valor_final :=
      if signOf valor_str then '-' :: valor_sem_sinal else valor_sem_sinal
    if floatAccepts valor_final then valor_final else ['0']

/-- String-level wrapper of the converter, used at the record level. -/
def converterStr (s : String) : String :=
  String.mk (converter_valor_brasileiro s.data)

/-- Does `needle` start the list `hay`? (helper for the substring test). -/
def startsWithChars : List Char → List Char → Bool
  | [], _ => true
  | _ :: _, [] => false
  | a :: as, b :: bs => a == b && startsWithChars as bs

/-- Python's `needle in hay` on strings: substring containment. -/
def hasSub (needle : List Char) : List Char → Bool
  | [] => startsWithChars needle []
  | c :: cs => startsWithChars needle (c :: cs) || hasSub needle cs

/-- One `<tr>` element as the extraction loops see it: its class-attribute
tokens and the `get_text(strip=True)` text of each of its `<td>` cells. -/
structure Tr where
  classes : List String
  cells : List String
deriving DecidableEq

/-- Lines 139/305: `any("destac" in str(c) for c in classes)` — the data-row
marker test (matches both `destaca` and `destacb`). -/
def isDataRow (tr : Tr) : Bool :=
  tr.classes.any (fun c => hasSub "destac".data c.data)

/-- An emitted record: ordered field-name/value pairs. -/
def Record := List (String × String)
deriving DecidableEq

/-- Loop state of `processar_faturamento` (lines 128-131). -/
structure FatState where
  faturamento : List Record
  linhas_processadas : Nat
  linhas_ignoradas : Nat
  devolucoes : Nat
deriving DecidableEq

/-- The record built at lines 206-217 for an accepted billing row. -/
def fatRecordOf (tr : Tr) : Record :=
  [("Cod. Cli./For.", tr.cells.getD 0 ""),
   ("Cliente/Fornecedor", tr.cells.getD 1 ""),
   ("Data", tr.cells.getD 2 ""),
   ("Total Item", converterStr (tr.cells.getD 3 "")),
   ("Vendedor", tr.cells.getD 4 ""),
   ("Ref. Produto", tr.cells.getD 5 ""),
   ("Des. Grupo Completa", tr.cells.getD 6 ""),
   ("Marca", tr.cells.getD 7 ""),
   ("Cidade", tr.cells.getD 8 ""),
   ("Estado", tr.cells.getD 9 "")]

/-- Body of the `for tr in soup.find_all("tr")` loop of
`processar_faturamento` (lines 135-229).  Unmarked rows are skipped before
any counter moves; marked rows count as processed, and every rejection path
(wrong cell count, empty required field, `float()` failure, zero total)
increments `linhas_ignoradas` and emits nothing. -/
def fatStep (st : FatState) (tr : Tr) : FatState :=
  if !isDataRow tr then st
  else
    let lp := st.linhas_processadas + 1
    if !(tr.cells.length == 10) then
      { st with linhas_processadas := lp,
                linhas_ignoradas := st.linhas_ignoradas + 1 }
    else
      let cliente := tr.cells.getD 1 ""
      let data := tr.cells.getD 2 ""
      let total := converterStr (tr.cells.getD 3 "")
      if cliente == "" || data == "" then
        { st with linhas_processadas := lp,
                  linhas_ignoradas := st.linhas_ignoradas + 1 }
      else if !floatAccepts total.data then
        { st with linhas_processadas := lp,
                  linhas_ignoradas := st.linhas_ignoradas + 1 }
      else if floatValZ total.data == 0 then
        { st with linhas_processadas := lp,
                  linhas_ignoradas := st.linhas_ignoradas + 1 }
      else
        { faturamento := st.faturamento ++ [fatRecordOf tr],
          linhas_processadas := lp,
          linhas_ignoradas := st.linhas_ignoradas,
          devolucoes :=
            if floatValZ total.data < 0 then st.devolucoes + 1
            else st.devolucoes }

/-- The `processar_faturamento` extraction loop over the parsed rows. -/
def processar_faturamento (rows : List Tr) : FatState :=
  rows.foldl fatStep { faturamento := [], linhas_processadas := 0,
                       linhas_ignoradas := 0, devolucoes := 0 }

/-- The acceptance condition a billing row must meet to produce a record,
read off lines 139-203: marked, exactly 10 cells, non-empty client and date,
total passes `float()`, total not zero. -/
def fatAccepted (tr : Tr) : Bool :=
  isDataRow tr && tr.cells.length == 10
    && !(tr.cells.getD 1 "" == "") && !(tr.cells.getD 2 "" == "")
    && floatAccepts (converterStr (tr.cells.getD 3 "")).data
    && !(floatValZ (converterStr (tr.cells.getD 3 "")).data == 0)

/-- Loop state of `processar_pedidos` (lines 296-298). -/
structure PedState where
  pedidos : List Record
  linhas_processadas : Nat
  linhas_ignoradas : Nat
deriving DecidableEq

/-- The record built at lines 361-368 for an accepted order row. -/
def pedRecordOf (tr : Tr) : Record :=
  [("Data", tr.cells.getD 0 ""),
   ("Entrega Prod.",
     if tr.cells.getD 1 "" == "" then "" else tr.cells.getD 1 ""),
   ("Nr. Ped", tr.cells.getD 2 ""),
   ("Cliente", tr.cells.getD 4 ""),
   ("Vendedor", tr.cells.getD 6 ""),
   ("Total", converterStr (tr.cells.getD 10 ""))]

/-- Body of the row loop of `processar_pedidos` (lines 302-379): 12 cells
required, order number / client / date non-empty, and the total must parse
and be strictly positive (`valor_float <= 0` rejects, line 352). -/
def pedStep (st : PedState) (tr : Tr) : PedState :=
  if !isDataRow tr then st
  else
    let lp := st.linhas_processadas + 1
    if !(tr.cells.length == 12) then
      { st with linhas_processadas := lp,
                linhas_ignoradas := st.linhas_ignoradas + 1 }
    else
      let nr_pedido := tr.cells.getD 2 ""
      let cliente := tr.cells.getD 4 ""
      let data_pedido := tr.cells.getD 0 ""
      let total := converterStr (tr.cells.getD 10 "")
      if nr_pedido == "" || cliente == "" || data_pedido == "" then
        { st with linhas_processadas := lp,
                  linhas_ignoradas := st.linhas_ignoradas + 1 }
      else if !floatAccepts total.data then
        { st with linhas_processadas := lp,
                  linhas_ignoradas := st.linhas_ignoradas + 1 }
      else if floatValZ total.data ≤ 0 then
        { st with linhas_processadas := lp,
                  linhas_ignoradas := st.linhas_ignoradas + 1 }
      else
        { pedidos := st.pedidos ++ [pedRecordOf tr],
          linhas_processadas := lp,
          linhas_ignoradas := st.linhas_ignoradas }

/-- The `processar_pedidos` extraction loop over the parsed rows. -/
def processar_pedidos (rows : List Tr) : PedState :=
  rows.foldl pedStep { pedidos := [], linhas_processadas := 0,
                       linhas_ignoradas := 0 }

/-- The acceptance condition an order row must meet to produce a record,
read off lines 305-359. -/
def pedAccepted (tr : Tr) : Bool :=
  isDataRow tr && tr.cells.length == 12
    && !(tr.cells.getD 2 "" == "") && !(tr.cells.getD 4 "" == "")
    && !(tr.cells.getD 0 "" == "")
    && floatAccepts (converterStr (tr.cells.getD 10 "")).data
    && !(decide (floatValZ (converterStr (tr.cells.getD 10 "")).data ≤ 0))

/-- The `-?\d+\.\d{2}` canonical-money pattern of the specification. -/
def canonicalMoney (s : List Char) : Bool :=
  let t := if s.head? == some '-' then s.drop 1 else s
  !(t.takeWhile Char.isDigit).isEmpty
    && (match t.dropWhile Char.isDigit with
        | ['.', a, b] => a.isDigit && b.isDigit
        | _ => false)

theorem digit_ne_beq (c d : Char) (h : c.isDigit = true) (hd : d.isDigit = false) :
    (c == d) = false := by
  cases hc : c == d
  · rfl
  · rw [eq_of_beq hc] at h
    rw [h] at hd
    exact absurd hd (by simp)

theorem digit_not_space {c : Char} (h : c.isDigit = true) : pyIsSpace c = false := by
  unfold pyIsSpace
  rw [digit_ne_beq c ' ' h (by decide), digit_ne_beq c '\t' h (by decide),
      digit_ne_beq c '\n' h (by decide), digit_ne_beq c '\r' h (by decide),
      digit_ne_beq c '\x0b' h (by decide), digit_ne_beq c '\x0c' h (by decide)]
  rfl

theorem takeWhile_append_stop (p : Char → Bool) (a : List Char) (y : Char)
    (b : List Char) (ha : ∀ x ∈ a, p x = true) (hy : p y = false) :
    (a ++ y :: b).takeWhile p = a := by
  induction a with
  | nil => simp [List.takeWhile_cons, hy]
  | cons c cs ih =>
    have hc : p c = true := ha c (by simp)
    simp only [List.cons_append, List.takeWhile_cons, hc, if_true]
    rw [ih (fun x hx => ha x (by simp [hx]))]

theorem dropWhile_append_stop (p : Char → Bool) (a : List Char) (y : Char)
    (b : List Char) (ha : ∀ x ∈ a, p x = true) (hy : p y = false) :
    (a ++ y :: b).dropWhile p = y :: b := by
  induction a with
  | nil => simp [List.dropWhile_cons, hy]
  | cons c cs ih =>
    have hc : p c = true := ha c (by simp)
    simp only [List.cons_append, List.dropWhile_cons, hc, if_true]
    exact ih (fun x hx => ha x (by simp [hx]))

theorem floatBody_decomp (a b : List Char) (ha : ∀ x ∈ a, x.isDigit = true)
    (hb : ∀ x ∈ b, x.isDigit = true) (hne : a ≠ [] ∨ b ≠ []) :
    floatBody (a ++ '.' :: b) = true := by
  unfold floatBody
  rw [dropWhile_append_stop Char.isDigit a '.' b ha (by decide),
      takeWhile_append_stop Char.isDigit a '.' b ha (by decide)]
  simp only [beq_self_eq_true, Bool.true_and, Bool.and_eq_true, List.all_eq_true,
    Bool.or_eq_true, Bool.not_eq_eq_eq_not, Bool.not_true, List.isEmpty_eq_false]
  constructor
  · exact fun x hx => hb x hx
  · rcases hne with h | h
    · exact Or.inl h
    · exact Or.inr h

theorem floatAccepts_of_digits_dot (a b : List Char) (ha : ∀ x ∈ a, x.isDigit = true)
    (hb : ∀ x ∈ b, x.isDigit = true) (hne : a ≠ [] ∨ b ≠ []) :
    floatAccepts (a ++ '.' :: b) = true := by
  have hcond : ((a ++ '.' :: b).head? == some '-'
      || (a ++ '.' :: b).head? == some '+') = false := by
    cases a with
    | nil =>
      simp only [List.nil_append, List.head?_cons]
      decide
    | cons c cs =>
      have hc : c.isDigit = true := ha c (by simp)
      simp only [List.cons_append, List.head?_cons]
      show ((c == '-') || (c == '+')) = false
      rw [digit_ne_beq c '-' hc (by decide), digit_ne_beq c '+' hc (by decide)]
      rfl
  unfold floatAccepts
  rw [hcond, if_neg (by decide)]
  exact floatBody_decomp a b ha hb hne

theorem floatAccepts_neg_of_digits_dot (a b : List Char)
    (ha : ∀ x ∈ a, x.isDigit = true) (hb : ∀ x ∈ b, x.isDigit = true)
    (hne : a ≠ [] ∨ b ≠ []) :
    floatAccepts ('-' :: (a ++ '.' :: b)) = true := by
  unfold floatAccepts
  simp only [List.head?_cons, beq_self_eq_true, Bool.true_or, if_true, List.drop_one,
    List.tail_cons]
  exact floatBody_decomp a b ha hb hne

theorem dropWhile_of_all_false (p : Char → Bool) (s : List Char)
    (h : ∀ x ∈ s, p x = false) : s.dropWhile p = s := by
  cases s with
  | nil => rfl
  | cons c cs => simp [List.dropWhile_cons, h c (by simp)]

theorem pyStrip_of_no_space (s : List Char) (h : ∀ x ∈ s, pyIsSpace x = false) :
    pyStrip s = s := by
  unfold pyStrip
  rw [dropWhile_of_all_false pyIsSpace s h,
      dropWhile_of_all_false pyIsSpace s.reverse
        (fun x hx => h x (List.mem_reverse.mp hx)),
      List.reverse_reverse]

theorem cleanChars_of_kept (s : List Char)
    (h : ∀ x ∈ s, (x.isDigit || x == ',' || x == '.') = true) :
    cleanChars s = s := by
  unfold cleanChars
  exact List.filter_eq_self.mpr h

theorem splitDot_no_dot (s : List Char) (h : ∀ x ∈ s, (x == '.') = false) :
    splitDot s = [s] := by
  induction s with
  | nil => rfl
  | cons c cs ih =>
    simp only [splitDot]
    rw [ih (fun x hx => h x (by simp [hx]))]
    simp [h c (by simp)]

theorem splitDot_append (a b : List Char) (ha : ∀ x ∈ a, (x == '.') = false) :
    splitDot (a ++ '.' :: b) = a :: splitDot b := by
  induction a with
  | nil => simp [splitDot]
  | cons c cs ih =>
    simp only [List.cons_append, splitDot, List.append_eq]
    rw [ih (fun x hx => ha x (by simp [hx]))]
    simp [ha c (by simp)]

theorem mem_canonical_cases {x : Char} {d : List Char} {e1 e2 : Char}
    (hx : x ∈ d ++ '.' :: [e1, e2]) :
    x ∈ d ∨ x = '.' ∨ x = e1 ∨ x = e2 := by
  rcases List.mem_append.mp hx with h | h
  · exact Or.inl h
  · simp only [List.mem_cons, List.not_mem_nil, or_false] at h
    exact Or.inr h

theorem canonical_alphabet (d : List Char) (e1 e2 : Char)
    (hdall : ∀ x ∈ d, x.isDigit = true)
    (h1 : e1.isDigit = true) (h2 : e2.isDigit = true) :
    ∀ x ∈ d ++ '.' :: [e1, e2], (x.isDigit || x == ',' || x == '.') = true := by
  intro x hx
  rcases mem_canonical_cases hx with h | rfl | rfl | rfl
  · simp [hdall x h]
  · simp
  · simp [h1]
  · simp [h2]

/-- C8 core: the converter is the identity on strings of the canonical form
`\d+\.\d{2}`. -/
theorem converter_fixes_canonical (d : List Char) (e1 e2 : Char)
    (hd : d ≠ []) (hdall : ∀ x ∈ d, x.isDigit = true)
    (h1 : e1.isDigit = true) (h2 : e2.isDigit = true) :
    converter_valor_brasileiro (d ++ '.' :: [e1, e2]) = d ++ '.' :: [e1, e2] := by
  have hall := canonical_alphabet d e1 e2 hdall h1 h2
  have hnospace : ∀ x ∈ d ++ '.' :: [e1, e2], pyIsSpace x = false := by
    intro x hx
    rcases mem_canonical_cases hx with h | rfl | rfl | rfl
    · exact digit_not_space (hdall x h)
    · decide
    · exact digit_not_space h1
    · exact digit_not_space h2
  have hstrip : pyStrip (d ++ '.' :: [e1, e2]) = d ++ '.' :: [e1, e2] :=
    pyStrip_of_no_space _ hnospace
  have hsign : signOf (d ++ '.' :: [e1, e2]) = false := by
    unfold signOf
    rw [hstrip]
    cases d with
    | nil => exact absurd rfl hd
    | cons c cs =>
      simp only [List.cons_append, List.head?_cons]
      show (c == '-') = false
      exact digit_ne_beq c '-' (hdall c (by simp)) (by decide)
  have hclean : cleanedOf (d ++ '.' :: [e1, e2]) = d ++ '.' :: [e1, e2] := by
    unfold cleanedOf
    rw [hsign, if_neg (by decide), hstrip]
    exact cleanChars_of_kept _ hall
  have hempty : (d ++ '.' :: [e1, e2]).isEmpty = false := by
    cases d <;> simp
  have hnocomma : ((d ++ '.' :: [e1, e2]).any (fun c => c == ',')) = false := by
    rw [Bool.eq_false_iff]
    intro hany
    rcases List.any_eq_true.mp hany with ⟨x, hx, hcx⟩
    rcases mem_canonical_cases hx with h | rfl | rfl | rfl
    · rw [digit_ne_beq x ',' (hdall x h) (by decide)] at hcx
      cases hcx
    · cases hcx
    · rw [digit_ne_beq _ ',' h1 (by decide)] at hcx
      cases hcx
    · rw [digit_ne_beq _ ',' h2 (by decide)] at hcx
      cases hcx
  have hsplit : splitDot (d ++ '.' :: [e1, e2]) = [d, [e1, e2]] := by
    rw [splitDot_append d [e1, e2]
        (fun x hx => digit_ne_beq x '.' (hdall x hx) (by decide)),
      splitDot_no_dot [e1, e2] ?hnd]
    case hnd =>
      intro x hx
      simp only [List.mem_cons, List.not_mem_nil, or_false] at hx
      rcases hx with rfl | rfl
      · exact digit_ne_beq _ '.' h1 (by decide)
      · exact digit_ne_beq _ '.' h2 (by decide)
  have hncb : noCommaBranch (d ++ '.' :: [e1, e2]) = d ++ '.' :: [e1, e2] := by
    unfold noCommaBranch
    rw [hsplit]
    simp
  have hfa : floatAccepts (d ++ '.' :: [e1, e2]) = true :=
    floatAccepts_of_digits_dot d [e1, e2] hdall
      (by
        intro x hx
        simp only [List.mem_cons, List.not_mem_nil, or_false] at hx
        rcases hx with rfl | rfl
        · exact h1
        · exact h2)
      (Or.inl hd)
  unfold converter_valor_brasileiro
  simp only [hclean, hempty, hnocomma, hsign, hncb, hfa, Bool.false_eq_true,
    if_false, if_true]

theorem commaBranch_decomp (a b : List Char) (hna : ',' ∉ a) (hnb : ',' ∉ b) :
    commaBranch (a ++ ',' :: b) =
      (a.filter (fun c => !(c == '.'))) ++ '.' :: (b.filter (fun c => !(c == '.'))) := by
  unfold commaBranch
  rw [List.filter_append, List.filter_cons]
  simp only [show (!(',' == '.')) = true from rfl, if_true]
  rw [List.map_append, List.map_cons]
  simp only [show (if (',' == ',') = true then '.' else ',') = '.' from rfl]
  have hmapid : ∀ t : List Char, ',' ∉ t →
      (t.filter (fun c => !(c == '.'))).map (fun c => if c == ',' then '.' else c)
        = t.filter (fun c => !(c == '.')) := by
    intro t hnt
    have h : ∀ x ∈ t.filter (fun c => !(c == '.')),
        (if x == ',' then '.' else x) = x := by
      intro x hx
      have hxt : x ∈ t := List.mem_of_mem_filter hx
      have : (x == ',') = false := by
        cases hx2 : x == ','
        · rfl
        · exact absurd (eq_of_beq hx2 ▸ hxt) hnt
      rw [this]
      rfl
    calc (t.filter (fun c => !(c == '.'))).map (fun c => if c == ',' then '.' else c)
        = (t.filter (fun c => !(c == '.'))).map id := List.map_congr_left h
      _ = t.filter (fun c => !(c == '.')) := List.map_id _
  rw [hmapid a hna, hmapid b hnb]

theorem filter_dots_digits (a : List Char)
    (halpha : ∀ x ∈ a, (x.isDigit || x == ',' || x == '.') = true)
    (hna : ',' ∉ a) :
    ∀ x ∈ a.filter (fun c => !(c == '.')), x.isDigit = true := by
  intro x hx
  have hxa : x ∈ a := List.mem_of_mem_filter hx
  have hxd : (!(x == '.')) = true := (List.mem_filter.mp hx).2
  have halx := halpha x hxa
  simp only [Bool.or_eq_true] at halx
  rcases halx with (h | h) | h
  · exact h
  · exact absurd (eq_of_beq h ▸ hxa) hna
  · rw [h] at hxd
    cases hxd

theorem commaBranch_valid (c : List Char)
    (halpha : ∀ x ∈ c, (x.isDigit || x == ',' || x == '.') = true)
    (hcount : c.count ',' = 1) (hdig : c.any Char.isDigit = true) :
    floatAccepts (commaBranch c) = true
    ∧ floatAccepts ('-' :: commaBranch c) = true := by
  have hmem : ',' ∈ c := by
    have : 0 < c.count ',' := by rw [hcount]; exact Nat.one_pos
    exact List.count_pos_iff.mp this
  obtain ⟨a, b, rfl⟩ := List.append_of_mem hmem
  have hzero : a.count ',' = 0 ∧ b.count ',' = 0 := by
    rw [List.count_append, List.count_cons_self] at hcount
    omega
  have hna : ',' ∉ a := List.count_eq_zero.mp hzero.1
  have hnb : ',' ∉ b := List.count_eq_zero.mp hzero.2
  have halphaa : ∀ x ∈ a, (x.isDigit || x == ',' || x == '.') = true :=
    fun x hx => halpha x (List.mem_append.mpr (Or.inl hx))
  have halphab : ∀ x ∈ b, (x.isDigit || x == ',' || x == '.') = true :=
    fun x hx => halpha x (List.mem_append.mpr (Or.inr (List.mem_cons_of_mem _ hx)))
  have hda := filter_dots_digits a halphaa hna
  have hdb := filter_dots_digits b halphab hnb
  have hne : a.filter (fun ch => !(ch == '.')) ≠ []
      ∨ b.filter (fun ch => !(ch == '.')) ≠ [] := by
    rcases List.any_eq_true.mp hdig with ⟨x, hx, hxd⟩
    rcases List.mem_append.mp hx with hx | hx
    · refine Or.inl (List.ne_nil_of_mem (List.mem_filter.mpr ⟨hx, ?_⟩))
      rw [digit_ne_beq _ '.' hxd (by decide)]
      rfl
    · rcases List.mem_cons.mp hx with rfl | hx
      · exact absurd hxd (by decide)
      · refine Or.inr (List.ne_nil_of_mem (List.mem_filter.mpr ⟨hx, ?_⟩))
        rw [digit_ne_beq _ '.' hxd (by decide)]
        rfl
  rw [commaBranch_decomp a b hna hnb]
  exact ⟨floatAccepts_of_digits_dot _ _ hda hdb hne,
         floatAccepts_neg_of_digits_dot _ _ hda hdb hne⟩

theorem ite_floatAccepts (X : List Char) :
    floatAccepts (if floatAccepts X then X else ['0']) = true := by
  by_cases h : floatAccepts X = true
  · rw [if_pos h]
    exact h
  · simp only [Bool.not_eq_true] at h
    rw [if_neg (by simp [h])]
    decide

theorem converter_floatAccepts (s : List Char) :
    floatAccepts (converter_valor_brasileiro s) = true := by
  unfold converter_valor_brasileiro
  by_cases h0 : (cleanedOf s).isEmpty = true
  · rw [if_pos h0]
    decide
  · rw [if_neg h0]
    exact ite_floatAccepts _

theorem fatStep_faturamento (st : FatState) (tr : Tr) :
    (fatStep st tr).faturamento =
      if fatAccepted tr = true then st.faturamento ++ [fatRecordOf tr]
      else st.faturamento := by
  cases h1 : isDataRow tr <;>
  by_cases h2 : tr.cells.length = 10 <;>
  by_cases h3 : tr.cells.getD 1 "" = "" <;>
  by_cases h4 : tr.cells.getD 2 "" = "" <;>
  cases h5 : floatAccepts (converterStr (tr.cells.getD 3 "")).data <;>
  by_cases h6 : floatValZ (converterStr (tr.cells.getD 3 "")).data = 0 <;>
  simp [fatStep, fatAccepted, h1, h2, h3, h4, h5, h6,
    -List.getD_eq_getElem?_getD]

theorem pedStep_pedidos (st : PedState) (tr : Tr) :
    (pedStep st tr).pedidos =
      if pedAccepted tr = true then st.pedidos ++ [pedRecordOf tr]
      else st.pedidos := by
  cases h1 : isDataRow tr <;>
  by_cases h2 : tr.cells.length = 12 <;>
  by_cases h3 : tr.cells.getD 2 "" = "" <;>
  by_cases h4 : tr.cells.getD 4 "" = "" <;>
  by_cases h5 : tr.cells.getD 0 "" = "" <;>
  cases h6 : floatAccepts (converterStr (tr.cells.getD 10 "")).data <;>
  by_cases h7 : floatValZ (converterStr (tr.cells.getD 10 "")).data ≤ 0 <;>
  simp [pedStep, pedAccepted, h1, h2, h3, h4, h5, h6, h7,
    -List.getD_eq_getElem?_getD]

theorem processFat_faturamento (st : FatState) (rows : List Tr) :
    (rows.foldl fatStep st).faturamento
      = st.faturamento ++ (rows.filter fatAccepted).map fatRecordOf := by
  induction rows generalizing st with
  | nil => simp
  | cons tr rs ih =>
    rw [List.foldl_cons, ih (fatStep st tr), fatStep_faturamento]
    cases h : fatAccepted tr
    · simp [List.filter_cons, h]
    · simp [List.filter_cons, h]

theorem processPed_pedidos (st : PedState) (rows : List Tr) :
    (rows.foldl pedStep st).pedidos
      = st.pedidos ++ (rows.filter pedAccepted).map pedRecordOf := by
  induction rows generalizing st with
  | nil => simp
  | cons tr rs ih =>
    rw [List.foldl_cons, ih (pedStep st tr), pedStep_pedidos]
    cases h : pedAccepted tr
    · simp [List.filter_cons, h]
    · simp [List.filter_cons, h]

theorem fatStep_rejected_count (st : FatState) (tr : Tr)
    (h : isDataRow tr = true) (hrej : fatAccepted tr = false) :
    (fatStep st tr).linhas_ignoradas = st.linhas_ignoradas + 1
    ∧ (fatStep st tr).faturamento = st.faturamento := by
  by_cases h2 : tr.cells.length = 10 <;>
  by_cases h3 : tr.cells.getD 1 "" = "" <;>
  by_cases h4 : tr.cells.getD 2 "" = "" <;>
  cases h5 : floatAccepts (converterStr (tr.cells.getD 3 "")).data <;>
  by_cases h6 : floatValZ (converterStr (tr.cells.getD 3 "")).data = 0 <;>
  (try simp [fatAccepted, h, h2, h3, h4, h5, h6, -List.getD_eq_getElem?_getD] at hrej) <;>
  (try simp [fatStep, h, h2, h3, h4, h5, h6, -List.getD_eq_getElem?_getD])

/-- C9: for every input string, `converter_valor_brasileiro` terminates and
returns a string that Python `float()` accepts — either the validated
conversion (line 61 succeeded) or the sentinel `"0"` — so the `ValueError`
handlers guarding `float(total)` at lines 200-203 and 356-359 are
unreachable. -/
theorem converter_always_float_valid :
    ∀ s : List Char, floatAccepts (converter_valor_brasileiro s) = true :=
  converter_floatAccepts

/-- C1 (amended): for every input whose cleaned digits-and-separators form
contains exactly one comma and at least one digit, the converter deletes all
periods, replaces the comma with a period, and re-applies a leading minus;
the three quoted examples hold.  (An input whose cleaned form has a comma but
no digit, or several commas, instead fails `float()` validation and falls
back to the sentinel `"0"` — see the counterexample.) -/
theorem normalize_comma_branch (s : List Char)
    (h1 : (cleanedOf s).count ',' = 1)
    (h2 : (cleanedOf s).any Char.isDigit = true) :
    (converter_valor_brasileiro s =
      if signOf s then '-' :: commaBranch (cleanedOf s)
      else commaBranch (cleanedOf s))
    ∧ converter_valor_brasileiro "4.189,00".data = "4189.00".data
    ∧ converter_valor_brasileiro "373,50".data = "373.50".data
    ∧ converter_valor_brasileiro "-1.040,00".data = "-1040.00".data := by
  refine ⟨?_, by decide, by decide, by decide⟩
  have halpha : ∀ x ∈ cleanedOf s, (x.isDigit || x == ',' || x == '.') = true := by
    intro x hx
    unfold cleanedOf cleanChars at hx
    exact (List.mem_filter.mp hx).2
  have hvalid := commaBranch_valid (cleanedOf s) halpha h1 h2
  have hmem : ',' ∈ cleanedOf s := by
    have hpos : 0 < (cleanedOf s).count ',' := by
      rw [h1]
      exact Nat.one_pos
    exact List.count_pos_iff.mp hpos
  have hanyc : (cleanedOf s).any (fun c => c == ',') = true :=
    List.any_eq_true.mpr ⟨',', hmem, by decide⟩
  have hne : (cleanedOf s).isEmpty = false := by
    cases hc : cleanedOf s with
    | nil =>
      rw [hc] at hmem
      cases hmem
    | cons c cs => rfl
  unfold converter_valor_brasileiro
  simp only [hne, Bool.false_eq_true, if_false, hanyc, if_true]
  by_cases hs : signOf s = true
  · simp [hs, hvalid.2]
  · simp only [Bool.not_eq_true] at hs
    simp [hs, hvalid.1]

/-- C1 counterexample: the input `","` contains a comma after cleaning, yet
the converter does not return the delete-periods/replace-comma transform
(which would be `"."`): `float(".")` fails, so the sentinel `"0"` is
returned instead. -/
theorem normalize_comma_branch_cex :
    ((cleanedOf ",".data).any (fun c => c == ',') = true)
    ∧ converter_valor_brasileiro ",".data ≠
        (if signOf ",".data then '-' :: commaBranch (cleanedOf ",".data)
         else commaBranch (cleanedOf ",".data))
    ∧ converter_valor_brasileiro ",".data = "0".data := by
  decide

theorem normalize_comma_branch_witness :
    (cleanedOf "4.189,00".data).count ',' = 1
    ∧ (cleanedOf "4.189,00".data).any Char.isDigit = true
    ∧ converter_valor_brasileiro "4.189,00".data =
        (if signOf "4.189,00".data then '-' :: commaBranch (cleanedOf "4.189,00".data)
         else commaBranch (cleanedOf "4.189,00".data)) :=
  ⟨by decide, by decide,
   (normalize_comma_branch ("4.189,00".data) (by decide) (by decide)).1⟩

/-- C8: the converter is idempotent on canonical output — any string of the
form `\d+\.\d{2}` (a non-empty digit run, a period, exactly two digits) is
returned unchanged, because the no-comma branch keeps a single period
followed by exactly two digits. -/
theorem normalize_idempotent_canonical (d : List Char) (e1 e2 : Char)
    (hd : d ≠ []) (hdall : ∀ x ∈ d, x.isDigit = true)
    (h1 : e1.isDigit = true) (h2 : e2.isDigit = true) :
    converter_valor_brasileiro (d ++ '.' :: [e1, e2]) = d ++ '.' :: [e1, e2] :=
  converter_fixes_canonical d e1 e2 hd hdall h1 h2

theorem normalize_idempotent_canonical_witness :
    ("123".data ≠ [] ∧ (∀ x ∈ "123".data, x.isDigit = true)
      ∧ Char.isDigit '4' = true ∧ Char.isDigit '5' = true)
    ∧ converter_valor_brasileiro ("123".data ++ '.' :: ['4', '5'])
        = "123".data ++ '.' :: ['4', '5'] :=
  ⟨⟨by decide, by decide, by decide, by decide⟩,
   normalize_idempotent_canonical ("123".data) '4' '5' (by decide) (by decide)
     (by decide) (by decide)⟩

/-- C2 counterexample: the converter never reformats to two decimal places —
the empty input yields the sentinel `"0"`, not `"0.00"`, and the bare
thousands form `"1.234"` yields `"1234"`, not `"1234.00"`; neither matches
the canonical `-?\d+\.\d{2}` pattern. -/
theorem money_two_decimals_cex :
    converter_valor_brasileiro "".data = "0".data
    ∧ canonicalMoney (converter_valor_brasileiro "".data) = false
    ∧ converter_valor_brasileiro "1.234".data = "1234".data
    ∧ canonicalMoney (converter_valor_brasileiro "1.234".data) = false := by
  decide

/-- C2 (amended): every result of the converter — and hence every
"Total Item" value stored in an emitted billing Record — is a string that
parses as a base-10 float (an optional minus, digits, at most one period),
though not necessarily with two digits after the point; in particular
`converter("1.234") = "1234"` and `converter("") = "0"`. -/
theorem money_float_valid (rows : List Tr) (r : Record)
    (h : r ∈ (processar_faturamento rows).faturamento) :
    (∀ s : List Char, floatAccepts (converter_valor_brasileiro s) = true)
    ∧ converter_valor_brasileiro "1.234".data = "1234".data
    ∧ converter_valor_brasileiro "".data = "0".data
    ∧ ∃ t : String, List.lookup "Total Item" r = some t
        ∧ floatAccepts t.data = true := by
  refine ⟨converter_floatAccepts, by decide, by decide, ?_⟩
  unfold processar_faturamento at h
  rw [processFat_faturamento] at h
  simp only [List.nil_append] at h
  rcases List.mem_map.mp h with ⟨tr, htr, rfl⟩
  refine ⟨converterStr (tr.cells.getD 3 ""), ?_, converter_floatAccepts _⟩
  rfl

theorem money_float_valid_witness :
    fatRecordOf ⟨["destaca"], ["1", "AURORA", "30/10/2025", "480,00", "v", "r",
                               "g", "m", "c", "SC"]⟩ ∈
      (processar_faturamento
        [⟨["destaca"], ["1", "AURORA", "30/10/2025", "480,00", "v", "r",
                        "g", "m", "c", "SC"]⟩]).faturamento
    ∧ ∃ t : String,
        List.lookup "Total Item"
          (fatRecordOf ⟨["destaca"], ["1", "AURORA", "30/10/2025", "480,00",
                                      "v", "r", "g", "m", "c", "SC"]⟩) = some t
        ∧ floatAccepts t.data = true :=
  ⟨by decide,
   (money_float_valid
     [⟨["destaca"], ["1", "AURORA", "30/10/2025", "480,00", "v", "r",
                     "g", "m", "c", "SC"]⟩]
     (fatRecordOf ⟨["destaca"], ["1", "AURORA", "30/10/2025", "480,00", "v",
                                 "r", "g", "m", "c", "SC"]⟩)
     (by decide)).2.2.2⟩

/-- C3 counterexample: a marked row with 11 cells — at least the layout's 10
— produces no Record, because the code at line 148 demands exactly 10 cells
(`len(cells) != 10`), not at least 10. -/
theorem min_columns_cex :
    isDataRow ⟨["destaca"], ["1", "A", "30/10/2025", "480,00", "v", "r",
                             "g", "m", "c", "SC", "extra"]⟩ = true
    ∧ 10 ≤ (Tr.cells ⟨["destaca"], ["1", "A", "30/10/2025", "480,00", "v", "r",
                                    "g", "m", "c", "SC", "extra"]⟩).length
    ∧ (processar_faturamento
        [⟨["destaca"], ["1", "A", "30/10/2025", "480,00", "v", "r",
                        "g", "m", "c", "SC", "extra"]⟩]).faturamento = [] := by
  decide

/-- C3 (amended): a marked row produces a Record exactly when it has exactly
`minColumns` cells (10 for billing, 12 for orders) and passes the row
acceptance checks (required text fields non-empty and the total within the
endpoint's value policy); accepted Records appear in the output in document
row order — the output is precisely the accepted rows, in order, mapped to
their Records. -/
theorem records_in_document_order :
    ∀ rows : List Tr,
      (processar_faturamento rows).faturamento
        = (rows.filter fatAccepted).map fatRecordOf
      ∧ (processar_pedidos rows).pedidos
        = (rows.filter pedAccepted).map pedRecordOf := by
  intro rows
  constructor
  · unfold processar_faturamento
    rw [processFat_faturamento]
    rfl
  · unfold processar_pedidos
    rw [processPed_pedidos]
    rfl

/-- C4: a marked, well-formed billing row (10 cells, non-empty client and
date) whose total cell reads `"-1.040,00"` is accepted — negative totals
(returns) pass the zero-only rejection at line 190 — and its Record stores
`"Total Item": "-1040.00"` with the minus sign preserved. -/
theorem negative_total_preserved (tr : Tr)
    (h1 : isDataRow tr = true) (h2 : tr.cells.length = 10)
    (h3 : ¬ tr.cells.getD 1 "" = "") (h4 : ¬ tr.cells.getD 2 "" = "")
    (h5 : tr.cells.getD 3 "" = "-1.040,00") :
    fatAccepted tr = true
    ∧ List.lookup "Total Item" (fatRecordOf tr) = some "-1040.00"
    ∧ (processar_faturamento [tr]).faturamento = [fatRecordOf tr] := by
  have hconv : converterStr (tr.cells.getD 3 "") = "-1040.00" := by
    rw [h5]
    decide
  have hacc : fatAccepted tr = true := by
    simp only [fatAccepted, hconv, h2]
    simp [h1, h3, h4, -List.getD_eq_getElem?_getD]
    exact ⟨by decide, by decide⟩
  refine ⟨hacc, ?_, ?_⟩
  · unfold fatRecordOf
    rw [hconv]
    rfl
  · unfold processar_faturamento
    rw [processFat_faturamento]
    simp [List.filter_cons, hacc]

theorem negative_total_preserved_witness :
    isDataRow ⟨["destaca"], ["9", "CLI", "30/10/2025", "-1.040,00", "v", "r",
                             "g", "m", "c", "SC"]⟩ = true
    ∧ (Tr.cells ⟨["destaca"], ["9", "CLI", "30/10/2025", "-1.040,00", "v", "r",
                               "g", "m", "c", "SC"]⟩).length = 10
    ∧ (fatAccepted ⟨["destaca"], ["9", "CLI", "30/10/2025", "-1.040,00", "v",
                                  "r", "g", "m", "c", "SC"]⟩ = true
       ∧ List.lookup "Total Item"
           (fatRecordOf ⟨["destaca"], ["9", "CLI", "30/10/2025", "-1.040,00",
                                       "v", "r", "g", "m", "c", "SC"]⟩)
           = some "-1040.00"
       ∧ (processar_faturamento
           [⟨["destaca"], ["9", "CLI", "30/10/2025", "-1.040,00", "v", "r",
                           "g", "m", "c", "SC"]⟩]).faturamento
           = [fatRecordOf ⟨["destaca"], ["9", "CLI", "30/10/2025", "-1.040,00",
                                         "v", "r", "g", "m", "c", "SC"]⟩]) :=
  ⟨by decide, by decide,
   negative_total_preserved
     ⟨["destaca"], ["9", "CLI", "30/10/2025", "-1.040,00", "v", "r", "g", "m",
                    "c", "SC"]⟩
     (by decide) (by decide) (by decide) (by decide) (by decide)⟩

/-- C5: the two-row billing scenario — one marked row with total `"480,00"`
and client `"AURORA"`, one marked row with total `"0,00"` and client `"X"` —
yields exactly one Record, the AURORA one, with `"Total Item": "480.00"`;
the zero-total row is rejected. -/
theorem billing_zero_reject_scenario :
    (processar_faturamento
      [⟨["destaca"], ["1", "AURORA", "30/10/2025", "480,00", "v", "r",
                      "g", "m", "c", "SC"]⟩,
       ⟨["destacb"], ["2", "X", "30/10/2025", "0,00", "v", "r",
                      "g", "m", "c", "SC"]⟩]).faturamento
      = [fatRecordOf ⟨["destaca"], ["1", "AURORA", "30/10/2025", "480,00",
                                    "v", "r", "g", "m", "c", "SC"]⟩]
    ∧ List.lookup "Cliente/Fornecedor"
        (fatRecordOf ⟨["destaca"], ["1", "AURORA", "30/10/2025", "480,00",
                                    "v", "r", "g", "m", "c", "SC"]⟩)
        = some "AURORA"
    ∧ List.lookup "Total Item"
        (fatRecordOf ⟨["destaca"], ["1", "AURORA", "30/10/2025", "480,00",
                                    "v", "r", "g", "m", "c", "SC"]⟩)
        = some "480.00" := by
  decide

/-- C6: failure never escapes the extraction loop — the empty batch yields
the empty, well-formed state with zeroed counters; the records of a batch
are the concatenation of the records of its parts, so no earlier row can
prevent later rows from being processed; a marked row that fails acceptance
is counted in `linhas_ignoradas` and leaves the records untouched; and
removing any rejected row leaves the emitted records unchanged. -/
theorem failures_isolated :
    processar_faturamento [] = ⟨[], 0, 0, 0⟩
    ∧ processar_pedidos [] = ⟨[], 0, 0⟩
    ∧ (∀ a b : List Tr,
        (processar_faturamento (a ++ b)).faturamento
          = (processar_faturamento a).faturamento
            ++ (processar_faturamento b).faturamento)
    ∧ (∀ (st : FatState) (tr : Tr),
        isDataRow tr = true → fatAccepted tr = false →
        (fatStep st tr).linhas_ignoradas = st.linhas_ignoradas + 1
        ∧ (fatStep st tr).faturamento = st.faturamento)
    ∧ (∀ (a b : List Tr) (tr : Tr), fatAccepted tr = false →
        (processar_faturamento (a ++ tr :: b)).faturamento
          = (processar_faturamento (a ++ b)).faturamento) := by
  refine ⟨rfl, rfl, ?_, fatStep_rejected_count, ?_⟩
  · intro a b
    unfold processar_faturamento
    rw [processFat_faturamento, processFat_faturamento, processFat_faturamento,
      List.filter_append, List.map_append]
    simp
  · intro a b tr hrej
    unfold processar_faturamento
    rw [processFat_faturamento, processFat_faturamento]
    simp [List.filter_append, List.filter_cons, hrej]

theorem failures_isolated_witness :
    isDataRow ⟨["destaca"], []⟩ = true
    ∧ fatAccepted ⟨["destaca"], []⟩ = false
    ∧ ((fatStep ⟨[], 0, 0, 0⟩ ⟨["destaca"], []⟩).linhas_ignoradas = 0 + 1
       ∧ (fatStep ⟨[], 0, 0, 0⟩ ⟨["destaca"], []⟩).faturamento
           = FatState.faturamento ⟨[], 0, 0, 0⟩) :=
  ⟨by decide, by decide,
   failures_isolated.2.2.2.1 ⟨[], 0, 0, 0⟩ ⟨["destaca"], []⟩
     (by decide) (by decide)⟩

/-- C7: a row whose class list has no token containing `"destac"` is skipped
before any counter moves: both loop bodies return the state unchanged — no
Record, no increment of rows processed or rows ignored. -/
theorem unmarked_rows_skipped (st : FatState) (st2 : PedState) (tr : Tr)
    (h : isDataRow tr = false) :
    fatStep st tr = st ∧ pedStep st2 tr = st2 := by
  constructor
  · simp [fatStep, h]
  · simp [pedStep, h]

theorem unmarked_rows_skipped_witness :
    isDataRow ⟨["cabecalho"], ["x", "y"]⟩ = false
    ∧ (fatStep ⟨[], 0, 0, 0⟩ ⟨["cabecalho"], ["x", "y"]⟩ = ⟨[], 0, 0, 0⟩
       ∧ pedStep ⟨[], 0, 0⟩ ⟨["cabecalho"], ["x", "y"]⟩ = ⟨[], 0, 0⟩) :=
  ⟨by decide,
   unmarked_rows_skipped ⟨[], 0, 0, 0⟩ ⟨[], 0, 0⟩ ⟨["cabecalho"], ["x", "y"]⟩
     (by decide)⟩

/-- C10: every record emitted by the order loop has a `"Total"` that parses
as a strictly positive number — rows whose converted total is zero or
negative are rejected by the `valor_float <= 0` check at line 352, so
returns/credits never appear in order output. -/
theorem pedidos_total_positive (rows : List Tr) (r : Record)
    (h : r ∈ (processar_pedidos rows).pedidos) :
    ∃ t : String, List.lookup "Total" r = some t
      ∧ floatAccepts t.data = true ∧ 0 < floatValZ t.data := by
  unfold processar_pedidos at h
  rw [processPed_pedidos] at h
  simp only [List.nil_append] at h
  rcases List.mem_map.mp h with ⟨tr, htr, rfl⟩
  have hacc : pedAccepted tr = true := (List.mem_filter.mp htr).2
  simp only [pedAccepted, Bool.and_eq_true] at hacc
  refine ⟨converterStr (tr.cells.getD 10 ""), rfl, hacc.1.2, ?_⟩
  have hg := hacc.2
  simp only [Bool.not_eq_eq_eq_not, Bool.not_true, decide_eq_false_iff_not] at hg
  exact not_le.mp hg

theorem pedidos_total_positive_witness :
    pedRecordOf ⟨["destaca"], ["01/01", "02/01", "55", "9", "CLI", "2",
                               "VEND", "30", "5102", "N", "373,50", "E"]⟩ ∈
      (processar_pedidos
        [⟨["destaca"], ["01/01", "02/01", "55", "9", "CLI", "2", "VEND",
                        "30", "5102", "N", "373,50", "E"]⟩]).pedidos
    ∧ ∃ t : String,
        List.lookup "Total"
          (pedRecordOf ⟨["destaca"], ["01/01", "02/01", "55", "9", "CLI", "2",
                                      "VEND", "30", "5102", "N", "373,50",
                                      "E"]⟩) = some t
        ∧ floatAccepts t.data = true ∧ 0 < floatValZ t.data :=
  ⟨by decide,
   pedidos_total_positive
     [⟨["destaca"], ["01/01", "02/01", "55", "9", "CLI", "2", "VEND", "30",
                     "5102", "N", "373,50", "E"]⟩]
     (pedRecordOf ⟨["destaca"], ["01/01", "02/01", "55", "9", "CLI", "2",
                                 "VEND", "30", "5102", "N", "373,50", "E"]⟩)
     (by decide)⟩
